import Mathlib

/-!
Verification of the response-routing core of the Up-to-code WhatsApp backend:
the multi-algorithm similarity engine (`src/functions/calculateSimilarity.ts`),
the candidate selection step (`findRelevantQAPairs` in
`src/functions/sendWhatsAppMessage.ts`) and the threshold-based response
router (`generateResponse` in `src/functions/generateResponse.ts`).

Strings are modelled by Lean `String`; JavaScript numbers are modelled by
exact arithmetic (`Nat`/`Rat` for the integer-valued intermediate counts,
`ℝ` for the similarity scores, whose cosine component involves square
roots).  Database and network effects are modelled by explicit environment
records whose `Except` fields record success or thrown failure.
-/

namespace UpToCode

/-! ### Character and string helpers

JavaScript string primitives used by the source, re-implemented over
`List Char` so that they evaluate by kernel reduction:
`trim`, `toLowerCase`, `split(/\s+/)` and the `\b\w{3,}\b` keyword regexp. -/

def isWS (c : Char) : Bool := c.isWhitespace

/-- JavaScript `String.prototype.trim`. -/
def trimChars (l : List Char) : List Char :=
  ((l.dropWhile isWS).reverse.dropWhile isWS).reverse

/-- JavaScript `String.prototype.toLowerCase` (ASCII case mapping). -/
def lowerStr (s : String) : String := ⟨s.data.map Char.toLower⟩

/-- Normalization `userMessage.trim().toLowerCase()`, the normalization both the similarity
engine and the exact-match lookup apply. -/
def normStr (s : String) : String := lowerStr ⟨trimChars s.data⟩

/-- Maximal runs of characters not satisfying the separator predicate `p`
(used for both whitespace splitting and the keyword regexp). -/
def runsAux (p : Char → Bool) : List Char → List Char → List (List Char)
  | [], acc => if acc.isEmpty then [] else [acc.reverse]
  | c :: cs, acc =>
    if p c then
      (if acc.isEmpty then runsAux p cs [] else acc.reverse :: runsAux p cs [])
    else runsAux p cs (c :: acc)

def runs (p : Char → Bool) (l : List Char) : List (List Char) :=
  runsAux p l []

/-- JavaScript `s.split(/\s+/)`: the maximal non-whitespace runs, plus an
empty-string element at the front (resp. back) when the string starts
(resp. ends) with whitespace; `"".split(/\s+/)` is `[""]`. -/
def jsSplitWS (s : String) : List String :=
  match s.data with
  | [] => [""]
  | c :: cs =>
    (if isWS c then [""] else []) ++
      (runs isWS (c :: cs)).map (fun r => String.mk r) ++
      (if isWS ((c :: cs).getLastD c) then [""] else [])

/-- Words of a string as the source's `str.toLowerCase().split(/\s+/)`. -/
def wordsOf (s : String) : List String := jsSplitWS (lowerStr s)

/-- JavaScript `\w` (no unicode flag): ASCII letters, digits and underscore. -/
def isWordChar (c : Char) : Bool := c.isAlpha || c.isDigit || c = '_'

/-- Keyword extraction `str.toLowerCase().match(/\b\w{3,}\b/g) || []`: the maximal runs of
ASCII word characters of length at least 3. -/
def keywordsOf (s : String) : List String :=
  ((runs (fun c => !(isWordChar c)) (lowerStr s).data).filter
    (fun r => 3 ≤ r.length)).map (fun r => String.mk r)

/-- Does `pat` occur at the head of `hay`? (helper for substring search). -/
def leadsWith : List Char → List Char → Bool
  | _, [] => true
  | [], _ :: _ => false
  | h :: hs, p :: ps => h = p && leadsWith hs ps

/-- JavaScript `hay.includes(pat)`: contiguous substring occurrence. -/
def containsChars (pat : List Char) : List Char → Bool
  | [] => leadsWith [] pat
  | c :: hs => leadsWith (c :: hs) pat || containsChars pat hs

def strContains (hay pat : String) : Bool := containsChars pat.data hay.data

/-! ### Levenshtein distance

`levenshteinDistance` in `calculateSimilarity.ts` fills a
`(len2+1) × (len1+1)` matrix row by row; row `i` is computed from row
`i-1` with the recurrence
`matrix[i][j] = if str2[i-1] == str1[j-1] then diag else
 min (diag+1) (min (left+1) (above+1))` and the answer is
`matrix[len2][len1]`.  `levRow`/`levRowGo` compute one row from the
previous one; `levenshteinDistance` folds `levRow` over the second
string starting from row `0 = [0, 1, …, len1]`.

`levRec` is the textbook recursive single-character
insert/delete/substitute distance, the specification the claims refer
to; `levenshteinDistance_eq_levRec` below proves the matrix computes it. -/

/-- Inner loop of one row: `prest`, `diag`, `left` hold `prev[j…]`,
`prev[j-1]` and the freshly computed `row[j-1]`. -/
def levRowGo (y : Char) : List Char → List Nat → Nat → Nat → List Nat
  | [], _, _, _ => []
  | _ :: _, [], _, _ => []
  | x :: xs, above :: prest, diag, left =>
    let cur := if x = y then diag else min (diag + 1) (min (left + 1) (above + 1))
    cur :: levRowGo y xs prest above cur

/-- One step of the matrix fill: next row from the previous row. -/
def levRow (y : Char) (str1 : List Char) (prev : List Nat) : List Nat :=
  match prev with
  | [] => []
  | p0 :: prest => (p0 + 1) :: levRowGo y str1 prest p0 (p0 + 1)

/-- Function `levenshteinDistance` from `calculateSimilarity.ts`. -/
def levenshteinDistance (str1 str2 : String) : Nat :=
  (str2.data.foldl (fun prev y => levRow y str1.data prev)
    (List.range (str1.data.length + 1))).getLastD 0

/-- The classic single-character insert/delete/substitute edit distance
(reference definition for the equivalence proof). -/
def levRec : List Char → List Char → Nat
  | [], ys => ys.length
  | xs, [] => xs.length
  | x :: xs, y :: ys =>
    if x = y then levRec xs ys
    else 1 + min (levRec xs ys) (min (levRec (x :: xs) ys) (levRec xs (y :: ys)))
termination_by xs ys => xs.length + ys.length
decreasing_by all_goals simp_arith

/-- Reference value of the matrix row for second-string prefix `cs`, from
column `ps.length + 1` on: entry `k` is the distance between
`ps ++ (xs.take (k+1))` and `cs`. -/
def prevRowFrom (ps xs cs : List Char) : List Nat :=
  match xs with
  | [] => []
  | x :: xs' => levRec (ps ++ [x]) cs :: prevRowFrom (ps ++ [x]) xs' cs

/-- Reference value of the whole matrix row for second-string prefix `cs`. -/
def fullRow (str1 cs : List Char) : List Nat :=
  levRec [] cs :: prevRowFrom [] str1 cs

/-! ### The four similarity components (`calculateSimilarity.ts`) -/

/-- Component `levenshteinSimilarity`: normalized edit distance scaled to 0–100. -/
noncomputable def levenshteinSimilarity (str1 str2 : String) : ℝ :=
  let maxLength := max str1.data.length str2.data.length
  if maxLength = 0 then 100
  else ((maxLength : ℝ) - levenshteinDistance str1 str2) / maxLength * 100

/-- Component `jaccardSimilarity`: word-set overlap scaled to 0–100. -/
noncomputable def jaccardSimilarity (str1 str2 : String) : ℝ :=
  let words1 := (wordsOf str1).toFinset
  let words2 := (wordsOf str2).toFinset
  if (words1 ∪ words2).card = 0 then 100
  else ((words1 ∩ words2).card : ℝ) / (words1 ∪ words2).card * 100

/-- The union vocabulary `allWords` of `cosineSimilarity`. -/
def allWordsOf (str1 str2 : String) : Finset String :=
  (wordsOf str1 ++ wordsOf str2).toFinset

/-- `dotProduct` of the two word-frequency vectors. -/
def dotProductOf (str1 str2 : String) : Nat :=
  (allWordsOf str1 str2).sum (fun w => (wordsOf str1).count w * (wordsOf str2).count w)

/-- Squared magnitude of a word-frequency vector over vocabulary `all`. -/
def magSq (ws : List String) (all : Finset String) : Nat :=
  all.sum (fun w => ws.count w * ws.count w)

/-- Component `cosineSimilarity`: frequency-vector cosine scaled to 0–100. -/
noncomputable def cosineSimilarity (str1 str2 : String) : ℝ :=
  let magnitude1 := magSq (wordsOf str1) (allWordsOf str1 str2)
  let magnitude2 := magSq (wordsOf str2) (allWordsOf str1 str2)
  if magnitude1 = 0 ∨ magnitude2 = 0 then 0
  else (dotProductOf str1 str2 : ℝ) /
    (Real.sqrt magnitude1 * Real.sqrt magnitude2) * 100

/-- Component `keywordSimilarity`: Jaccard overlap of the `\b\w{3,}\b` keywords. -/
noncomputable def keywordSimilarity (str1 str2 : String) : ℝ :=
  let keywords1 := keywordsOf str1
  let keywords2 := keywordsOf str2
  if keywords1.length = 0 ∧ keywords2.length = 0 then 100
  else if keywords1.length = 0 ∨ keywords2.length = 0 then 0
  else ((keywords1.toFinset ∩ keywords2.toFinset).card : ℝ) /
    (keywords1.toFinset ∪ keywords2.toFinset).card * 100

/-- Rounding `Math.round(x * 100) / 100`: round to 2 decimal places
(`Math.round` rounds to the nearest integer, halves towards `+∞`). -/
noncomputable def round2 (x : ℝ) : ℝ := (⌊x * 100 + 1 / 2⌋ : ℝ) / 100

/-- Function `calculateSimilarity` from `calculateSimilarity.ts`: the weighted
ensemble of the four components on the trimmed, lower-cased inputs, with
the identical-input and empty-input short circuits. -/
noncomputable def calculateSimilarity (userMessage qaQuestion : String) : ℝ :=
  let msg1 := normStr userMessage
  let msg2 := normStr qaQuestion
  if msg1 = msg2 then 100
  else if msg1.data.length = 0 ∨ msg2.data.length = 0 then 0
  else
    round2 (levenshteinSimilarity msg1 msg2 * 0.2 + jaccardSimilarity msg1 msg2 * 0.3 +
      cosineSimilarity msg1 msg2 * 0.3 + keywordSimilarity msg1 msg2 * 0.2)

/-- The tags matching the user message: a tag matches when some word of
`userMessage.toLowerCase().split(/\s+/)` contains the lower-cased tag or
is contained in it. -/
def tagMatchesOf (userMessage : String) (qaTags : List String) : List String :=
  qaTags.filter (fun tag =>
    (wordsOf userMessage).any (fun word =>
      strContains word (lowerStr tag) || strContains (lowerStr tag) word))

section
open scoped Classical

/-- Function `calculateContextualSimilarity`: the base score plus the tag boost and
the answer-similarity boost, capped at 100. -/
noncomputable def calculateContextualSimilarity
    (userMessage qaQuestion qaAnswer : String) (qaTags : List String) : ℝ :=
  let base := calculateSimilarity userMessage qaQuestion
  let tagMatches := tagMatchesOf userMessage qaTags
  let tagBoost : ℝ := if 0 < tagMatches.length then min ((tagMatches.length : ℝ) * 5) 15 else 0
  let answerSimilarity := calculateSimilarity userMessage qaAnswer
  let answerBoost : ℝ := if 30 < answerSimilarity then min (answerSimilarity * 0.1) 10 else 0
  min (base + tagBoost + answerBoost) 100

end

/-! ### The response router

Data model (`QAPair` rows, `QAPairWithSimilarity` candidates), the external
collaborators of one routing pass bundled in `RouterEnv` (database reads and
the generative fallback are network calls; an `Except.error` field records
that the call threw), the candidate-selection step `findRelevantQAPairs`
from `sendWhatsAppMessage.ts` and the decision logic of
`generateResponse.ts`. -/

/-- One knowledge-base entry (a `qAPair` row). -/
structure QAPair where
  id : String
  question : String
  answer : String
  category : String
  language : String
  tags : List String
  priority : Int
  isActive : Bool
deriving DecidableEq

/-- A scored candidate (`QAPairWithSimilarity` in `sendWhatsAppMessage.ts`). -/
structure QAPairWithSimilarity where
  id : String
  question : String
  answer : String
  category : String
  language : String
  tags : List String
  priority : Int
  similarity : ℝ

/-- Successful result of the external generative fallback
(`generateAIResponse`). -/
structure AIResponse where
  response : String
  confidence : ℚ

/-- Outcomes of the external calls made during one routing pass:
the knowledge-base fetch (used by both the exact-match lookup and the
similarity scan), the legacy keyword/full-message lookups used in the
`catch` branch, the keywords `extractKeywords(message, 2)` computes, and
the generative fallback.  `Except.error` means the call threw. -/
structure RouterEnv where
  db : Except Unit (List QAPair)
  msgKeywords : List String
  kwResults : Except Unit (List QAPair)
  fullResults : Except Unit (List QAPair)
  ai : Except Unit AIResponse

/-- Modelled from the spec: `findExactMatch` is imported by
`sendWhatsAppMessage.ts` but absent from the sources.  Per the spec it
returns the active entries whose question, case/whitespace-normalized,
equals the normalized message, and the router picks the top exact match by
priority, so the matches are returned sorted by descending priority. -/
def findExactMatch (message : String) (pairs : List QAPair) : List QAPair :=
  ((pairs.filter (fun qa => qa.isActive)).filter
    (fun qa => normStr qa.question == normStr message)).mergeSort
    (fun a b => decide (b.priority ≤ a.priority))

/-- Attach a similarity score to an entry (the `{ ...qa, similarity }`
spreads in `findRelevantQAPairs`). -/
def toScored (similarity : ℝ) (qa : QAPair) : QAPairWithSimilarity :=
  { id := qa.id, question := qa.question, answer := qa.answer,
    category := qa.category, language := qa.language, tags := qa.tags,
    priority := qa.priority, similarity := similarity }

/-- Score one entry against the message with the contextual ensemble. -/
noncomputable def scoreQAPair (message : String) (qa : QAPair) : QAPairWithSimilarity :=
  toScored (calculateContextualSimilarity message qa.question qa.answer qa.tags) qa

/-- The sort order of the candidate list: descending similarity, ties by
descending priority (the comparator of `findRelevantQAPairs`). -/
def candBefore (a b : QAPairWithSimilarity) : Prop :=
  b.similarity < a.similarity ∨
    (a.similarity = b.similarity ∧ b.priority ≤ a.priority)

/-- The `catch` branch of `findRelevantQAPairs`: fall back to the legacy
keyword / full-message lookups, assigning every result the default
similarity 50; a failure of the fallback itself yields `[]`. -/
def legacyFallbackCandidates (env : RouterEnv) : List QAPairWithSimilarity :=
  if env.msgKeywords.length = 0 then
    match env.fullResults with
    | .ok results => results.map (toScored 50)
    | .error _ => []
  else
    match env.kwResults with
    | .ok results => results.map (toScored 50)
    | .error _ => []

section
open scoped Classical

/-- Function `findRelevantQAPairs` from `sendWhatsAppMessage.ts`: exact matches get
similarity 100 and bypass scoring; otherwise every active entry is scored
with `calculateContextualSimilarity`, entries scoring ≤ 20 are discarded,
the rest are sorted by descending similarity (ties by descending priority)
and the first `limit` are kept.  A thrown database error lands in the
legacy fallback branch. -/
noncomputable def findRelevantQAPairs (env : RouterEnv) (message : String)
    (limit : Nat) : List QAPairWithSimilarity :=
  match env.db with
  | .error _ => legacyFallbackCandidates env
  | .ok pairs =>
    let exactMatches := findExactMatch message pairs
    if 0 < exactMatches.length then exactMatches.map (toScored 100)
    else
      let allQAPairs := pairs.filter (fun qa => qa.isActive)
      if allQAPairs.length = 0 then []
      else
        (((allQAPairs.map (scoreQAPair message)).filter
          (fun qa => decide (20 < qa.similarity))).mergeSort
          (fun a b => decide (candBefore a b))).take limit

end

/-- Modelled from the spec: `detectLanguage` from `utils/helpers` is absent
from the sources; the spec specifies only a pure language detector whose
tag parameterizes the generative call and the static default message.
Detect Arabic script, else default to English. -/
def detectLanguage (text : String) : String :=
  if text.data.any (fun c => 0x0600 ≤ c.toNat && c.toNat ≤ 0x06FF) then "ar" else "en"

/-- Modelled from the spec: `getDefaultResponse` is absent from the
sources; the spec requires a fixed non-empty canned message parameterized
only by the detected language, phrased as a generic greeting/help prompt. -/
def getDefaultResponse (message language : String) : String :=
  if language = "ar" then "مرحبا! كيف يمكنني مساعدتك في استفسارك العقاري؟"
  else "Hello! How can I help you with your real estate inquiry?"

/-- The provenance recorded in the code's `responseSource` template
strings: `QA Database (…% match)`, `AI Agent (confidence: …%)`,
`QA Fallback (…% match)` and `Default Response`. -/
inductive ResponseSource where
  | qaDatabase (similarity : ℝ)
  | aiAgent (confidence : ℚ)
  | qaFallback (similarity : ℝ)
  | defaultResponse

/-- The leading label of the `responseSource` template string. -/
def sourceLabel : ResponseSource → String
  | .qaDatabase _ => "QA Database"
  | .aiAgent _ => "AI Agent"
  | .qaFallback _ => "QA Fallback"
  | .defaultResponse => "Default Response"

/-- The fixed related-topic hint appended to a generative answer when the
best candidate scores in the 50–89 band. -/
def relatedTopicSuffix (question : String) : String :=
  "\n\n💡 *Related topic*: " ++ question

section
open scoped Classical

/-- The decision logic of `generateResponse` (`generateResponse.ts`,
lines 53–118): given the scored candidate list, the detected language and
the generative attempt's outcome, produce the response text and its
provenance. -/
noncomputable def generateResponseCore (relevantQAs : List QAPairWithSimilarity)
    (message language : String) (ai : Except Unit AIResponse) :
    String × ResponseSource :=
  match relevantQAs with
  | bestMatch :: _ =>
    if 90 ≤ bestMatch.similarity then
      (bestMatch.answer, .qaDatabase bestMatch.similarity)
    else
      match ai with
      | .ok aiResponse =>
        (if 50 ≤ bestMatch.similarity then
            aiResponse.response ++ relatedTopicSuffix bestMatch.question
          else aiResponse.response,
          .aiAgent aiResponse.confidence)
      | .error _ => (bestMatch.answer, .qaFallback bestMatch.similarity)
  | [] =>
    match ai with
    | .ok aiResponse => (aiResponse.response, .aiAgent aiResponse.confidence)
    | .error _ => (getDefaultResponse message language, .defaultResponse)

/-- One full routing pass of `generateResponse`: candidate selection with
the default limit 5, language detection, then the threshold decision. -/
noncomputable def generateResponseDecision (env : RouterEnv) (message : String) :
    String × ResponseSource :=
  generateResponseCore (findRelevantQAPairs env message 5) message
    (detectLanguage message) env.ai

/-- The response text `generateResponse` returns. -/
noncomputable def generateResponse (env : RouterEnv) (message : String) : String :=
  (generateResponseDecision env message).1

end

/-! ### Proofs -/

@[simp] theorem levRec_nil_left (ys : List Char) : levRec [] ys = ys.length := by
  cases ys <;> simp [levRec]

@[simp] theorem levRec_nil_right (xs : List Char) : levRec xs [] = xs.length := by
  cases xs <;> simp [levRec]

theorem levRec_cons_cons (x y : Char) (xs ys : List Char) :
    levRec (x :: xs) (y :: ys) =
      if x = y then levRec xs ys
      else 1 + min (levRec xs ys) (min (levRec (x :: xs) ys) (levRec xs (y :: ys))) := by
  rw [levRec]

theorem min_one_add (a b : Nat) : min (1 + a) (1 + b) = 1 + min a b := by omega

/-- The classic distance also satisfies the recurrence at the *ends* of the
two strings: this is the fact that lets the matrix of prefix distances be
filled row by row. -/
theorem levRec_snoc_aux :
    ∀ n (ps cs : List Char), ps.length + cs.length ≤ n → ∀ x y : Char,
      levRec (ps ++ [x]) (cs ++ [y]) =
        if x = y then levRec ps cs
        else 1 + min (levRec ps cs)
          (min (levRec (ps ++ [x]) cs) (levRec ps (cs ++ [y]))) := by
  intro n
  induction n with
  | zero =>
    intro ps cs hlen x y
    have hps : ps = [] := by cases ps <;> simp_all
    have hcs : cs = [] := by cases cs <;> simp_all
    subst hps; subst hcs
    simp only [List.nil_append]
    rw [levRec_cons_cons]
  | succ n ih =>
    intro ps cs hlen x y
    match ps, cs with
    | [], [] =>
      simp only [List.nil_append]
      rw [levRec_cons_cons]
    | [], c :: cs' =>
      have h1 := ih [] cs' (by simp at hlen ⊢; omega) x y
      simp only [List.nil_append] at h1
      simp only [List.nil_append, List.cons_append]
      rw [levRec_cons_cons x c [] (cs' ++ [y]), levRec_cons_cons x c [] cs', h1]
      simp only [levRec_nil_left, levRec_nil_right, List.length_append,
        List.length_cons, List.length_nil]
      split_ifs <;> omega
    | p :: ps', [] =>
      have h1 := ih ps' [] (by simp at hlen ⊢; omega) x y
      simp only [List.nil_append] at h1
      simp only [List.nil_append, List.cons_append]
      rw [levRec_cons_cons p y (ps' ++ [x]) [], levRec_cons_cons p y ps' [], h1]
      simp only [levRec_nil_left, levRec_nil_right, List.length_append,
        List.length_cons, List.length_nil]
      split_ifs <;> omega
    | p :: ps', c :: cs' =>
      have hl : ps'.length + cs'.length + 2 ≤ n + 1 := by
        simp only [List.length_cons] at hlen; omega
      have ih1 := ih ps' cs' (by omega) x y
      have ih2 := ih (p :: ps') cs' (by simp only [List.length_cons]; omega) x y
      have ih3 := ih ps' (c :: cs') (by simp only [List.length_cons]; omega) x y
      simp only [List.cons_append] at ih2 ih3 ⊢
      rw [levRec_cons_cons p c (ps' ++ [x]) (cs' ++ [y]), ih1, ih2, ih3,
        levRec_cons_cons p c ps' cs',
        levRec_cons_cons p c (ps' ++ [x]) cs',
        levRec_cons_cons p c ps' (cs' ++ [y])]
      split_ifs <;> first
        | rfl
        | (simp only [min_one_add]; congr 2; ac_rfl)

theorem levRec_snoc (ps cs : List Char) (x y : Char) :
    levRec (ps ++ [x]) (cs ++ [y]) =
      if x = y then levRec ps cs
      else 1 + min (levRec ps cs)
        (min (levRec (ps ++ [x]) cs) (levRec ps (cs ++ [y]))) :=
  levRec_snoc_aux (ps.length + cs.length) ps cs le_rfl x y

theorem levRowGo_spec (y : Char) :
    ∀ (xs ps cs : List Char),
      levRowGo y xs (prevRowFrom ps xs cs) (levRec ps cs) (levRec ps (cs ++ [y])) =
        prevRowFrom ps xs (cs ++ [y]) := by
  intro xs
  induction xs with
  | nil => intro ps cs; simp [prevRowFrom, levRowGo]
  | cons x xs' ih =>
    intro ps cs
    show levRowGo y (x :: xs')
        (levRec (ps ++ [x]) cs :: prevRowFrom (ps ++ [x]) xs' cs)
        (levRec ps cs) (levRec ps (cs ++ [y])) = _
    rw [levRowGo]
    have hcur :
        (if x = y then levRec ps cs
          else min (levRec ps cs + 1)
            (min (levRec ps (cs ++ [y]) + 1) (levRec (ps ++ [x]) cs + 1))) =
        levRec (ps ++ [x]) (cs ++ [y]) := by
      rw [levRec_snoc]
      split_ifs with h
      · rfl
      · omega
    show (if x = y then levRec ps cs
        else min (levRec ps cs + 1)
          (min (levRec ps (cs ++ [y]) + 1) (levRec (ps ++ [x]) cs + 1))) ::
        levRowGo y xs' (prevRowFrom (ps ++ [x]) xs' cs) (levRec (ps ++ [x]) cs) _ = _
    rw [hcur, prevRowFrom]
    exact congrArg _ (ih (ps ++ [x]) cs)

theorem levRow_spec (y : Char) (str1 cs : List Char) :
    levRow y str1 (fullRow str1 cs) = fullRow str1 (cs ++ [y]) := by
  show levRow y str1 (levRec [] cs :: prevRowFrom [] str1 cs) = _
  rw [levRow]
  have h0 : levRec [] cs + 1 = levRec [] (cs ++ [y]) := by
    simp [List.length_append]
  rw [fullRow, ← h0]
  exact congrArg _ (h0 ▸ levRowGo_spec y str1 [] cs)

theorem foldl_levRow_spec (str1 : List Char) :
    ∀ (l cs : List Char),
      l.foldl (fun prev y => levRow y str1 prev) (fullRow str1 cs) =
        fullRow str1 (cs ++ l) := by
  intro l
  induction l with
  | nil => intro cs; simp
  | cons y l' ih =>
    intro cs
    rw [List.foldl_cons, levRow_spec, ih]
    congr 1
    simp

theorem prevRowFrom_nil : ∀ (xs ps : List Char),
    prevRowFrom ps xs [] = List.range' (ps.length + 1) xs.length := by
  intro xs
  induction xs with
  | nil => intro ps; simp [prevRowFrom]
  | cons x xs' ih =>
    intro ps
    rw [prevRowFrom, List.length_cons, List.range'_succ, ih (ps ++ [x])]
    simp [List.length_append]

theorem fullRow_nil (str1 : List Char) :
    fullRow str1 [] = List.range (str1.length + 1) := by
  rw [fullRow, prevRowFrom_nil, List.range_eq_range', List.range'_succ]
  simp

theorem prevRowFrom_getLastD : ∀ (xs ps cs : List Char) (d : Nat),
    (levRec ps cs :: prevRowFrom ps xs cs).getLastD d = levRec (ps ++ xs) cs := by
  intro xs
  induction xs with
  | nil => intro ps cs d; simp [prevRowFrom]
  | cons x xs' ih =>
    intro ps cs d
    rw [prevRowFrom, List.getLastD_cons, List.getLastD_cons]
    have := ih (ps ++ [x]) cs (levRec ps cs)
    rw [List.getLastD_cons] at this
    rw [this]
    congr 1
    simp

/-- The row-filling loop of `levenshteinDistance` computes the classic
recursive edit distance. -/
theorem levenshteinDistance_eq_levRec (str1 str2 : String) :
    levenshteinDistance str1 str2 = levRec str1.data str2.data := by
  rw [levenshteinDistance, ← fullRow_nil, foldl_levRow_spec, List.nil_append,
    fullRow, prevRowFrom_getLastD, List.nil_append]

/-- The classic distance never exceeds the longer string's length. -/
theorem levRec_le_max : ∀ (xs ys : List Char),
    levRec xs ys ≤ max xs.length ys.length := by
  intro xs
  induction xs with
  | nil => intro ys; simp
  | cons x xs ih =>
    intro ys
    cases ys with
    | nil => simp
    | cons y ys =>
      rw [levRec_cons_cons]
      split_ifs with h
      · have := ih ys
        simp only [List.length_cons]
        omega
      · have h1 : min (levRec xs ys) (min (levRec (x :: xs) ys) (levRec xs (y :: ys))) ≤
            levRec xs ys := min_le_left _ _
        have := ih ys
        simp only [List.length_cons]
        omega

theorem levRec_symm_aux : ∀ n (xs ys : List Char), xs.length + ys.length ≤ n →
    levRec xs ys = levRec ys xs := by
  intro n
  induction n with
  | zero =>
    intro xs ys hlen
    have hx : xs = [] := by cases xs <;> simp_all
    have hy : ys = [] := by cases ys <;> simp_all
    subst hx; subst hy; rfl
  | succ n ih =>
    intro xs ys hlen
    match xs, ys with
    | [], ys => simp
    | x :: xs, [] => simp
    | x :: xs, y :: ys =>
      simp only [List.length_cons] at hlen
      rw [levRec_cons_cons, levRec_cons_cons,
        ih xs ys (by omega), ih (x :: xs) ys (by simp only [List.length_cons]; omega),
        ih xs (y :: ys) (by simp only [List.length_cons]; omega)]
      by_cases h : x = y
      · subst h
        simp
      · rw [if_neg h, if_neg (fun hh => h hh.symm)]
        rw [min_comm (levRec ys (x :: xs)) (levRec (y :: ys) xs)]

/-- The classic distance is symmetric. -/
theorem levRec_symm (xs ys : List Char) : levRec xs ys = levRec ys xs :=
  levRec_symm_aux (xs.length + ys.length) xs ys le_rfl

/-! ### Range facts about the similarity engine -/

theorem levenshteinSimilarity_bounds (s1 s2 : String) :
    0 ≤ levenshteinSimilarity s1 s2 ∧ levenshteinSimilarity s1 s2 ≤ 100 := by
  simp only [levenshteinSimilarity]
  by_cases h : max s1.data.length s2.data.length = 0
  · rw [if_pos h]; norm_num
  · rw [if_neg h]
    have hd : levenshteinDistance s1 s2 ≤ max s1.data.length s2.data.length := by
      rw [levenshteinDistance_eq_levRec]; exact levRec_le_max _ _
    have hm0 : (0 : ℝ) < (max s1.data.length s2.data.length : ℕ) := by
      exact_mod_cast Nat.pos_of_ne_zero h
    have hdr : (levenshteinDistance s1 s2 : ℝ) ≤ (max s1.data.length s2.data.length : ℕ) := by
      exact_mod_cast hd
    have hd0 : (0 : ℝ) ≤ (levenshteinDistance s1 s2 : ℝ) := by positivity
    constructor
    · apply mul_nonneg _ (by norm_num)
      apply div_nonneg _ (le_of_lt hm0)
      linarith
    · have h1 : ((max s1.data.length s2.data.length : ℕ) : ℝ) - levenshteinDistance s1 s2 ≤
          (max s1.data.length s2.data.length : ℕ) := by linarith
      have := div_le_one_of_le₀ h1 (le_of_lt hm0)
      nlinarith

theorem jaccardSimilarity_bounds (s1 s2 : String) :
    0 ≤ jaccardSimilarity s1 s2 ∧ jaccardSimilarity s1 s2 ≤ 100 := by
  simp only [jaccardSimilarity]
  set w1 := (wordsOf s1).toFinset
  set w2 := (wordsOf s2).toFinset
  by_cases h : (w1 ∪ w2).card = 0
  · rw [if_pos h]; norm_num
  · rw [if_neg h]
    have hsub : (w1 ∩ w2).card ≤ (w1 ∪ w2).card :=
      Finset.card_le_card (Finset.inter_subset_union)
    have hu : (0 : ℝ) < ((w1 ∪ w2).card : ℕ) := by
      exact_mod_cast Nat.pos_of_ne_zero h
    have hir : ((w1 ∩ w2).card : ℝ) ≤ ((w1 ∪ w2).card : ℕ) := by exact_mod_cast hsub
    have hi0 : (0 : ℝ) ≤ ((w1 ∩ w2).card : ℝ) := by positivity
    constructor
    · positivity
    · have := div_le_one_of_le₀ hir (le_of_lt hu)
      nlinarith

theorem cosineSimilarity_bounds (s1 s2 : String) :
    0 ≤ cosineSimilarity s1 s2 ∧ cosineSimilarity s1 s2 ≤ 100 := by
  simp only [cosineSimilarity]
  set all := allWordsOf s1 s2 with hall
  by_cases h : magSq (wordsOf s1) all = 0 ∨ magSq (wordsOf s2) all = 0
  · rw [if_pos h]; norm_num
  · rw [if_neg h]
    push_neg at h
    obtain ⟨h1, h2⟩ := h
    have hm1 : (0 : ℝ) < (magSq (wordsOf s1) all : ℕ) := by
      exact_mod_cast Nat.pos_of_ne_zero h1
    have hm2 : (0 : ℝ) < (magSq (wordsOf s2) all : ℕ) := by
      exact_mod_cast Nat.pos_of_ne_zero h2
    have hs1 : (0 : ℝ) < Real.sqrt (magSq (wordsOf s1) all : ℕ) := Real.sqrt_pos.mpr hm1
    have hs2 : (0 : ℝ) < Real.sqrt (magSq (wordsOf s2) all : ℕ) := Real.sqrt_pos.mpr hm2
    have hcs : ((dotProductOf s1 s2 : ℕ) : ℝ) ^ 2 ≤
        ((magSq (wordsOf s1) all : ℕ) : ℝ) * ((magSq (wordsOf s2) all : ℕ) : ℝ) := by
      have key := Finset.sum_mul_sq_le_sq_mul_sq all
        (fun w => ((wordsOf s1).count w : ℝ)) (fun w => ((wordsOf s2).count w : ℝ))
      have hd : ((dotProductOf s1 s2 : ℕ) : ℝ) =
          all.sum (fun w => ((wordsOf s1).count w : ℝ) * ((wordsOf s2).count w : ℝ)) := by
        rw [dotProductOf, ← hall]
        push_cast
        rfl
      have hm1e : ((magSq (wordsOf s1) all : ℕ) : ℝ) =
          all.sum (fun w => ((wordsOf s1).count w : ℝ) ^ 2) := by
        rw [magSq]
        push_cast
        exact Finset.sum_congr rfl (fun w _ => by ring)
      have hm2e : ((magSq (wordsOf s2) all : ℕ) : ℝ) =
          all.sum (fun w => ((wordsOf s2).count w : ℝ) ^ 2) := by
        rw [magSq]
        push_cast
        exact Finset.sum_congr rfl (fun w _ => by ring)
      rw [hd, hm1e, hm2e]
      exact key
    have hdot : ((dotProductOf s1 s2 : ℕ) : ℝ) ≤
        Real.sqrt (magSq (wordsOf s1) all : ℕ) * Real.sqrt (magSq (wordsOf s2) all : ℕ) := by
      rw [← Real.sqrt_mul (le_of_lt hm1)]
      rw [show ((dotProductOf s1 s2 : ℕ) : ℝ) =
        Real.sqrt (((dotProductOf s1 s2 : ℕ) : ℝ) ^ 2) from (Real.sqrt_sq (by positivity)).symm]
      exact Real.sqrt_le_sqrt hcs
    constructor
    · positivity
    · have := div_le_one_of_le₀ hdot (by positivity)
      nlinarith

theorem keywordSimilarity_bounds (s1 s2 : String) :
    0 ≤ keywordSimilarity s1 s2 ∧ keywordSimilarity s1 s2 ≤ 100 := by
  simp only [keywordSimilarity]
  by_cases h1 : (keywordsOf s1).length = 0 ∧ (keywordsOf s2).length = 0
  · rw [if_pos h1]; norm_num
  · rw [if_neg h1]
    by_cases h2 : (keywordsOf s1).length = 0 ∨ (keywordsOf s2).length = 0
    · rw [if_pos h2]; norm_num
    · rw [if_neg h2]
      push_neg at h2
      set k1 := (keywordsOf s1).toFinset
      set k2 := (keywordsOf s2).toFinset
      have hne : (k1 ∪ k2).card ≠ 0 := by
        have hk : k1.Nonempty := (List.toFinset_nonempty_iff _).mpr
          (List.ne_nil_of_length_pos (Nat.pos_of_ne_zero h2.1))
        exact (Finset.card_pos.mpr hk.inl).ne'
      have hsub : (k1 ∩ k2).card ≤ (k1 ∪ k2).card :=
        Finset.card_le_card (Finset.inter_subset_union)
      have hu : (0 : ℝ) < ((k1 ∪ k2).card : ℕ) := by
        exact_mod_cast Nat.pos_of_ne_zero hne
      have hir : ((k1 ∩ k2).card : ℝ) ≤ ((k1 ∪ k2).card : ℕ) := by exact_mod_cast hsub
      constructor
      · positivity
      · have := div_le_one_of_le₀ hir (le_of_lt hu)
        nlinarith

theorem round2_nonneg (x : ℝ) (h : 0 ≤ x) : 0 ≤ round2 x := by
  rw [round2]
  have : (0 : ℤ) ≤ ⌊x * 100 + 1 / 2⌋ := Int.floor_nonneg.mpr (by linarith)
  have hr : (0 : ℝ) ≤ (⌊x * 100 + 1 / 2⌋ : ℤ) := by exact_mod_cast this
  linarith

theorem round2_le_100 (x : ℝ) (h : x ≤ 100) : round2 x ≤ 100 := by
  rw [round2]
  have : ⌊x * 100 + 1 / 2⌋ < 10001 := Int.floor_lt.mpr (by push_cast; linarith)
  have hr : ((⌊x * 100 + 1 / 2⌋ : ℤ) : ℝ) ≤ 10000 := by exact_mod_cast Int.lt_add_one_iff.mp this
  linarith

theorem round2_mono_const (x : ℝ) (c : ℤ) (h : (c : ℝ) ≤ x) : (c : ℝ) ≤ round2 x := by
  rw [round2]
  have : (c * 100 : ℤ) ≤ ⌊x * 100 + 1 / 2⌋ := Int.le_floor.mpr (by push_cast; linarith)
  have hr : ((c * 100 : ℤ) : ℝ) ≤ (⌊x * 100 + 1 / 2⌋ : ℤ) := by exact_mod_cast this
  push_cast at hr
  linarith

theorem calculateSimilarity_bounds (a b : String) :
    0 ≤ calculateSimilarity a b ∧ calculateSimilarity a b ≤ 100 := by
  simp only [calculateSimilarity]
  split_ifs with h1 h2
  · norm_num
  · norm_num
  · have l := levenshteinSimilarity_bounds (normStr a) (normStr b)
    have j := jaccardSimilarity_bounds (normStr a) (normStr b)
    have c := cosineSimilarity_bounds (normStr a) (normStr b)
    have k := keywordSimilarity_bounds (normStr a) (normStr b)
    constructor
    · exact round2_nonneg _ (by nlinarith [l.1, j.1, c.1, k.1])
    · exact round2_le_100 _ (by nlinarith [l.2, j.2, c.2, k.2])

theorem calculateContextualSimilarity_bounds (a q ans : String) (tags : List String) :
    0 ≤ calculateContextualSimilarity a q ans tags ∧
      calculateContextualSimilarity a q ans tags ≤ 100 := by
  have hb := (calculateSimilarity_bounds a q).1
  simp only [calculateContextualSimilarity]
  refine ⟨le_min ?_ (by norm_num), min_le_right _ _⟩
  split_ifs
  · exact add_nonneg (add_nonneg hb (le_min (by positivity) (by norm_num)))
      (le_min (by linarith) (by norm_num))
  · exact add_nonneg (add_nonneg hb (le_min (by positivity) (by norm_num))) le_rfl
  · exact add_nonneg (add_nonneg hb le_rfl) (le_min (by linarith) (by norm_num))
  · exact add_nonneg (add_nonneg hb le_rfl) le_rfl

/-! ### Symmetry of the similarity engine -/

theorem levenshteinDistance_symm (s1 s2 : String) :
    levenshteinDistance s1 s2 = levenshteinDistance s2 s1 := by
  rw [levenshteinDistance_eq_levRec, levenshteinDistance_eq_levRec, levRec_symm]

theorem levenshteinSimilarity_symm (s1 s2 : String) :
    levenshteinSimilarity s1 s2 = levenshteinSimilarity s2 s1 := by
  simp only [levenshteinSimilarity]
  rw [max_comm s1.data.length s2.data.length, levenshteinDistance_symm]

theorem jaccardSimilarity_symm (s1 s2 : String) :
    jaccardSimilarity s1 s2 = jaccardSimilarity s2 s1 := by
  simp only [jaccardSimilarity]
  rw [Finset.union_comm, Finset.inter_comm]

theorem allWordsOf_symm (s1 s2 : String) : allWordsOf s1 s2 = allWordsOf s2 s1 := by
  simp only [allWordsOf]
  rw [List.toFinset_append, List.toFinset_append, Finset.union_comm]

theorem dotProductOf_symm (s1 s2 : String) : dotProductOf s1 s2 = dotProductOf s2 s1 := by
  simp only [dotProductOf]
  rw [allWordsOf_symm]
  exact Finset.sum_congr rfl (fun w _ => mul_comm _ _)

theorem cosineSimilarity_symm (s1 s2 : String) :
    cosineSimilarity s1 s2 = cosineSimilarity s2 s1 := by
  simp only [cosineSimilarity]
  rw [allWordsOf_symm s1 s2, dotProductOf_symm s1 s2]
  by_cases h : magSq (wordsOf s1) (allWordsOf s2 s1) = 0 ∨
      magSq (wordsOf s2) (allWordsOf s2 s1) = 0
  · rw [if_pos h, if_pos h.symm]
  · rw [if_neg h, if_neg (fun hh => h hh.symm)]
    ring

theorem keywordSimilarity_symm (s1 s2 : String) :
    keywordSimilarity s1 s2 = keywordSimilarity s2 s1 := by
  simp only [keywordSimilarity]
  by_cases h1 : (keywordsOf s1).length = 0 ∧ (keywordsOf s2).length = 0
  · rw [if_pos h1, if_pos h1.symm]
  · have h1' : ¬((keywordsOf s2).length = 0 ∧ (keywordsOf s1).length = 0) :=
      fun hh => h1 hh.symm
    rw [if_neg h1, if_neg h1']
    by_cases h2 : (keywordsOf s1).length = 0 ∨ (keywordsOf s2).length = 0
    · rw [if_pos h2, if_pos h2.symm]
    · have h2' : ¬((keywordsOf s2).length = 0 ∨ (keywordsOf s1).length = 0) :=
        fun hh => h2 hh.symm
      rw [if_neg h2, if_neg h2']
      rw [Finset.union_comm, Finset.inter_comm]

/-! ### Auxiliary string facts -/

theorem str_eq_empty_iff (s : String) : s = "" ↔ s.data = [] := by
  cases s with
  | mk data =>
    constructor
    · intro h
      simpa using congrArg String.data h
    · intro h
      subst h
      rfl

theorem norm_lengths_ne_zero {a b : String} (ha : normStr a ≠ "") (hb : normStr b ≠ "") :
    ¬((normStr a).data.length = 0 ∨ (normStr b).data.length = 0) := by
  rw [not_or]
  constructor
  · intro hh
    exact ha ((str_eq_empty_iff _).mpr (List.length_eq_zero.mp hh))
  · intro hh
    exact hb ((str_eq_empty_iff _).mpr (List.length_eq_zero.mp hh))

/-! ### Concrete evaluations used in the router scenarios -/

theorem filter_singleton_pos {α : Type} (p : α → Bool) {a : α} (h : p a = true) :
    [a].filter p = [a] := by
  simp [List.filter_cons, h]

theorem findExactMatch_nil (message : String) (pairs : List QAPair)
    (h : (pairs.filter (fun qa => qa.isActive)).filter
      (fun qa => normStr qa.question == normStr message) = []) :
    findExactMatch message pairs = [] := by
  simp only [findExactMatch, h, List.mergeSort_nil]

theorem calc_self (s : String) : calculateSimilarity s s = 100 := by
  simp [calculateSimilarity]

theorem calc_ab_empty : calculateSimilarity "a b" "" = 0 := by
  simp only [calculateSimilarity]
  rw [if_neg (by decide : ¬(normStr "a b" = normStr "")),
    if_pos (by decide : (normStr "a b").data.length = 0 ∨ (normStr "").data.length = 0)]

theorem levSim_ab_ba : levenshteinSimilarity "a b" "b a" = 100 / 3 := by
  simp only [levenshteinSimilarity]
  rw [show max ("a b").data.length ("b a").data.length = 3 from by decide,
    show levenshteinDistance "a b" "b a" = 2 from by decide]
  rw [if_neg (by norm_num)]
  norm_num

theorem jac_ab_ba : jaccardSimilarity "a b" "b a" = 100 := by
  simp only [jaccardSimilarity]
  rw [show ((wordsOf "a b").toFinset ∪ (wordsOf "b a").toFinset).card = 2 from by decide,
    show ((wordsOf "a b").toFinset ∩ (wordsOf "b a").toFinset).card = 2 from by decide]
  rw [if_neg (by norm_num)]
  norm_num

theorem cos_ab_ba : cosineSimilarity "a b" "b a" = 100 := by
  simp only [cosineSimilarity]
  rw [show magSq (wordsOf "a b") (allWordsOf "a b" "b a") = 2 from by decide,
    show magSq (wordsOf "b a") (allWordsOf "a b" "b a") = 2 from by decide,
    show dotProductOf "a b" "b a" = 2 from by decide]
  rw [if_neg (by simp)]
  push_cast
  rw [Real.mul_self_sqrt (by norm_num : (0:ℝ) ≤ 2)]
  norm_num

theorem kw_ab_ba : keywordSimilarity "a b" "b a" = 100 := by
  simp only [keywordSimilarity]
  rw [show keywordsOf "a b" = [] from by decide,
    show keywordsOf "b a" = [] from by decide]
  simp

theorem calc_ab_ba : calculateSimilarity "a b" "b a" = 86.67 := by
  simp only [calculateSimilarity]
  rw [show normStr "a b" = "a b" from by decide,
    show normStr "b a" = "b a" from by decide]
  rw [if_neg (by decide : ¬("a b" : String) = "b a"),
    if_neg (by decide : ¬(("a b" : String).data.length = 0 ∨ ("b a" : String).data.length = 0))]
  rw [levSim_ab_ba, jac_ab_ba, cos_ab_ba, kw_ab_ba, round2]
  rw [show (100 / 3 * 0.2 + 100 * 0.3 + 100 * 0.3 + 100 * 0.2 : ℝ) * 100 + 1 / 2 =
    52003 / 6 from by norm_num]
  rw [show ⌊(52003 : ℝ) / 6⌋ = (8667 : ℤ) from by norm_num [Int.floor_eq_iff]]
  norm_num

theorem ctx_ab_ba_noboost : calculateContextualSimilarity "a b" "b a" "" [] = 86.67 := by
  simp only [calculateContextualSimilarity]
  rw [show tagMatchesOf "a b" ([] : List String) = [] from rfl, calc_ab_ba, calc_ab_empty]
  rw [if_neg (by simp : ¬(0 < ([] : List String).length)),
    if_neg (by norm_num : ¬(30 : ℝ) < 0)]
  norm_num

theorem ctx_ab_ba_boost : calculateContextualSimilarity "a b" "b a" "a b" ["a"] = 100 := by
  simp only [calculateContextualSimilarity]
  rw [show tagMatchesOf "a b" ["a"] = ["a"] from by decide, calc_ab_ba, calc_self]
  rw [if_pos (by simp : 0 < (["a"] : List String).length),
    if_pos (by norm_num : (30 : ℝ) < 100)]
  norm_num

/-! ### Claims about the similarity engine -/

/-- C5: for all input strings the ensemble score lies in `[0,100]` — in
particular the normalized edit-distance component is non-negative because
the Levenshtein distance never exceeds the longer normalized string's
length — and for every answer text and tag list the contextual score also
lies in `[0,100]` even after the boosts (the result is clamped at 100). -/
theorem c5_score_range (a b ans : String) (tags : List String) :
    levenshteinDistance (normStr a) (normStr b) ≤
      max (normStr a).data.length (normStr b).data.length ∧
    (0 ≤ calculateSimilarity a b ∧ calculateSimilarity a b ≤ 100) ∧
    (0 ≤ calculateContextualSimilarity a b ans tags ∧
      calculateContextualSimilarity a b ans tags ≤ 100) :=
  ⟨by rw [levenshteinDistance_eq_levRec]; exact levRec_le_max _ _,
   calculateSimilarity_bounds a b,
   calculateContextualSimilarity_bounds a b ans tags⟩

/-- C10: the ensemble score is symmetric in its two arguments — the early
equality/empty checks and all four sub-algorithms are symmetric. -/
theorem c10_score_symm (a b : String) :
    calculateSimilarity a b = calculateSimilarity b a := by
  simp only [calculateSimilarity]
  by_cases h : normStr a = normStr b
  · rw [if_pos h, if_pos h.symm]
  · have h' : ¬(normStr b = normStr a) := fun hh => h hh.symm
    rw [if_neg h, if_neg h']
    by_cases h2 : (normStr a).data.length = 0 ∨ (normStr b).data.length = 0
    · rw [if_pos h2, if_pos h2.symm]
    · have h2' : ¬((normStr b).data.length = 0 ∨ (normStr a).data.length = 0) :=
        fun hh => h2 hh.symm
      rw [if_neg h2, if_neg h2']
      rw [levenshteinSimilarity_symm, jaccardSimilarity_symm,
        cosineSimilarity_symm, keywordSimilarity_symm]

/-- C8: identical-after-normalization inputs score exactly 100 (including
two inputs that are empty after normalization), and if exactly one input
is empty after normalization the score is 0. -/
theorem c8_identity_empty (a b : String) :
    (normStr a = normStr b → calculateSimilarity a b = 100) ∧
    ((normStr a = "" ∧ normStr b ≠ "") ∨ (normStr a ≠ "" ∧ normStr b = "") →
      calculateSimilarity a b = 0) := by
  constructor
  · intro h
    simp only [calculateSimilarity]
    rw [if_pos h]
  · intro h
    have hne : normStr a ≠ normStr b := by
      rcases h with ⟨h1, h2⟩ | ⟨h1, h2⟩
      · intro hh; exact h2 (by rw [← hh, h1])
      · intro hh; exact h1 (by rw [hh, h2])
    have hlen : (normStr a).data.length = 0 ∨ (normStr b).data.length = 0 := by
      rcases h with ⟨h1, _⟩ | ⟨_, h2⟩
      · left; rw [(str_eq_empty_iff _).mp h1]; rfl
      · right; rw [(str_eq_empty_iff _).mp h2]; rfl
    simp only [calculateSimilarity]
    rw [if_neg hne, if_pos hlen]

theorem c8_witness :
    calculateSimilarity "  Hello " "hello" = 100 ∧ calculateSimilarity "  " "x" = 0 :=
  ⟨(c8_identity_empty "  Hello " "hello").1 (by decide),
   (c8_identity_empty "  " "x").2 (Or.inl ⟨by decide, by decide⟩)⟩

/-- C9 (implicit): the keyword extraction `\b\w{3,}\b` recognizes only
ASCII word characters, so two distinct non-empty messages neither of which
contains a run of 3 or more ASCII word characters (e.g. two entirely
Arabic-script messages) have empty keyword sets, the keyword component
returns 100, and its full 0.20 weight (20 points) flows into the base
score of completely unrelated messages. -/
theorem c9_keyword_nonascii (a b : String)
    (hka : keywordsOf (normStr a) = []) (hkb : keywordsOf (normStr b) = [])
    (hne : normStr a ≠ normStr b) (ha : normStr a ≠ "") (hb : normStr b ≠ "") :
    keywordSimilarity (normStr a) (normStr b) = 100 ∧
      20 ≤ calculateSimilarity a b := by
  have hkw : keywordSimilarity (normStr a) (normStr b) = 100 := by
    simp only [keywordSimilarity]
    rw [hka, hkb]
    simp
  refine ⟨hkw, ?_⟩
  simp only [calculateSimilarity]
  rw [if_neg hne, if_neg (norm_lengths_ne_zero ha hb), hkw]
  have l := (levenshteinSimilarity_bounds (normStr a) (normStr b)).1
  have j := (jaccardSimilarity_bounds (normStr a) (normStr b)).1
  have c := (cosineSimilarity_bounds (normStr a) (normStr b)).1
  have h20 := round2_mono_const (levenshteinSimilarity (normStr a) (normStr b) * 0.2 +
    jaccardSimilarity (normStr a) (normStr b) * 0.3 +
    cosineSimilarity (normStr a) (normStr b) * 0.3 + 100 * 0.2) 20 (by push_cast; nlinarith)
  push_cast at h20
  linarith

theorem c9_witness :
    keywordsOf (normStr "مرحبا") = [] ∧
    (keywordSimilarity (normStr "مرحبا") (normStr "كيف الحال") = 100 ∧
      20 ≤ calculateSimilarity "مرحبا" "كيف الحال") :=
  ⟨by decide, c9_keyword_nonascii "مرحبا" "كيف الحال"
    (by decide) (by decide) (by decide) (by decide) (by decide)⟩

/-- C6: for inputs whose normalized forms are non-empty and distinct, the
score is the weighted sum `0.20·edit + 0.30·jaccard + 0.30·cosine +
0.20·keyword` rounded to 2 decimal places, where the edit component is
`100 × (maxLen − d) / maxLen` and `d` is the classic single-character
insert/delete/substitute distance between the two normalized strings. -/
theorem c6_weighted_ensemble (a b : String)
    (hne : normStr a ≠ normStr b) (ha : normStr a ≠ "") (hb : normStr b ≠ "") :
    calculateSimilarity a b =
      round2 (0.20 * (100 *
          (((max (normStr a).data.length (normStr b).data.length : ℕ) : ℝ) -
            (levRec (normStr a).data (normStr b).data : ℕ)) /
          ((max (normStr a).data.length (normStr b).data.length : ℕ) : ℝ)) +
        0.30 * jaccardSimilarity (normStr a) (normStr b) +
        0.30 * cosineSimilarity (normStr a) (normStr b) +
        0.20 * keywordSimilarity (normStr a) (normStr b)) := by
  simp only [calculateSimilarity]
  rw [if_neg hne, if_neg (norm_lengths_ne_zero ha hb)]
  congr 1
  simp only [levenshteinSimilarity]
  have hmax : ¬(max (normStr a).data.length (normStr b).data.length = 0) := by
    intro h
    rcases Nat.max_eq_zero_iff.mp h with ⟨h1, _⟩
    exact ha ((str_eq_empty_iff _).mpr (List.length_eq_zero.mp h1))
  rw [if_neg hmax, levenshteinDistance_eq_levRec]
  ring

/-! ### Router facts -/

theorem findRelevantQAPairs_single (env : RouterEnv) (e : QAPair) (msg : String)
    (hdb : env.db = Except.ok [e]) (hex : findExactMatch msg [e] = [])
    (hact : e.isActive = true) (hs : 20 < (scoreQAPair msg e).similarity) :
    findRelevantQAPairs env msg 5 = [scoreQAPair msg e] := by
  simp only [findRelevantQAPairs, hdb]
  rw [hex, if_neg (by simp),
    show [e].filter (fun qa => qa.isActive) = [e] from
      filter_singleton_pos (fun qa : QAPair => qa.isActive) hact]
  rw [if_neg (by simp)]
  simp only [List.map_cons, List.map_nil]
  rw [filter_singleton_pos
      (fun qa : QAPairWithSimilarity => decide (20 < qa.similarity)) (decide_eq_true hs),
    List.mergeSort_singleton]
  simp

/-- C2: for every non-empty candidate list on the non-exact path, a best
similarity ≥ 90 returns that candidate's answer verbatim (provenance
`QA Database`) without consulting the generative fallback, while below 90
the generative attempt runs, and on success the response is the generated
text with the fixed related-topic suffix naming the best candidate's
question appended exactly when 50 ≤ similarity (< 90), and the bare
generated text when similarity < 50. -/
theorem c2_threshold_bands (best : QAPairWithSimilarity)
    (rest : List QAPairWithSimilarity) (message language : String) :
    (90 ≤ best.similarity →
      ∀ ai, generateResponseCore (best :: rest) message language ai =
        (best.answer, ResponseSource.qaDatabase best.similarity)) ∧
    (best.similarity < 90 → ∀ r : AIResponse,
      generateResponseCore (best :: rest) message language (Except.ok r) =
        ((if 50 ≤ best.similarity then
            r.response ++ relatedTopicSuffix best.question
          else r.response), ResponseSource.aiAgent r.confidence)) := by
  constructor
  · intro h ai
    simp only [generateResponseCore]
    rw [if_pos h]
  · intro h r
    simp only [generateResponseCore]
    rw [if_neg (not_le.mpr h)]

theorem c2_witness :
    generateResponseCore [⟨"e1", "q90", "a90", "c", "en", [], 1, 90⟩] "m" "en"
        (Except.ok ⟨"gen", 9 / 10⟩) =
      ("a90", ResponseSource.qaDatabase 90) ∧
    generateResponseCore [⟨"e2", "q89", "a89", "c", "en", [], 1, 89.99⟩] "m" "en"
        (Except.ok ⟨"gen", 9 / 10⟩) =
      ("gen" ++ relatedTopicSuffix "q89", ResponseSource.aiAgent (9 / 10)) := by
  constructor
  · exact (c2_threshold_bands ⟨"e1", "q90", "a90", "c", "en", [], 1, 90⟩ [] "m" "en").1
      (by norm_num) (Except.ok ⟨"gen", 9 / 10⟩)
  · have h := (c2_threshold_bands ⟨"e2", "q89", "a89", "c", "en", [], 1, 89.99⟩
      [] "m" "en").2 (by norm_num) ⟨"gen", 9 / 10⟩
    rw [h, if_pos (by norm_num : (50 : ℝ) ≤ 89.99)]

/-- C3 (amended): when the generative fallback fails, the router recovers
locally: with no candidate it returns the static default message (which is
never empty) with provenance `Default Response`; with a candidate list
whose best entry scored below 90 it returns that candidate's stored answer
verbatim with provenance `QA Fallback` — so the returned text is empty
exactly when the stored answer is empty. -/
theorem c3_generative_failure_recovery (qas : List QAPairWithSimilarity)
    (message language : String) :
    (qas = [] →
      generateResponseCore qas message language (Except.error ()) =
        (getDefaultResponse message language, ResponseSource.defaultResponse) ∧
      getDefaultResponse message language ≠ "") ∧
    (∀ best rest, qas = best :: rest → best.similarity < 90 →
      generateResponseCore qas message language (Except.error ()) =
        (best.answer, ResponseSource.qaFallback best.similarity)) := by
  constructor
  · intro h
    subst h
    refine ⟨rfl, ?_⟩
    simp only [getDefaultResponse]
    split_ifs <;> decide
  · intro best rest h hs
    subst h
    simp only [generateResponseCore]
    rw [if_neg (not_le.mpr hs)]

theorem c3_witness :
    (generateResponseCore ([] : List QAPairWithSimilarity) "hi" "en" (Except.error ()) =
        (getDefaultResponse "hi" "en", ResponseSource.defaultResponse) ∧
      getDefaultResponse "hi" "en" ≠ "") ∧
    generateResponseCore [⟨"e", "q", "some answer", "c", "en", [], 0, 60⟩] "hi" "en"
        (Except.error ()) = ("some answer", ResponseSource.qaFallback 60) :=
  ⟨(c3_generative_failure_recovery [] "hi" "en").1 rfl,
   (c3_generative_failure_recovery [⟨"e", "q", "some answer", "c", "en", [], 0, 60⟩]
     "hi" "en").2 ⟨"e", "q", "some answer", "c", "en", [], 0, 60⟩ [] rfl (by norm_num)⟩

/-- C3 counterexample: the knowledge base holds one active entry with
question `"b a"` and *empty* answer text; the message `"a b"` scores
86.67 against it, surviving the >20 floor, the generative fallback fails,
and the route returns the empty string — refuting the claim's
"in all cases route returns a non-empty response text". -/
theorem c3_counterexample :
    generateResponse
      ⟨Except.ok [⟨"e", "b a", "", "c", "en", [], 0, true⟩], [],
        Except.error (), Except.error (), Except.error ()⟩ "a b" = "" := by
  have hscore : (scoreQAPair "a b" ⟨"e", "b a", "", "c", "en", [], 0, true⟩).similarity =
      86.67 := by
    simp only [scoreQAPair, toScored]
    exact ctx_ab_ba_noboost
  have hsingle := findRelevantQAPairs_single
    ⟨Except.ok [⟨"e", "b a", "", "c", "en", [], 0, true⟩], [],
      Except.error (), Except.error (), Except.error ()⟩
    ⟨"e", "b a", "", "c", "en", [], 0, true⟩ "a b" rfl
    (findExactMatch_nil _ _ (by decide)) rfl (by rw [hscore]; norm_num)
  simp only [generateResponse, generateResponseDecision, hsingle]
  simp only [generateResponseCore]
  rw [if_neg (by rw [hscore]; norm_num)]
  rfl

theorem candBefore_trans {a b c : QAPairWithSimilarity}
    (hab : candBefore a b) (hbc : candBefore b c) : candBefore a c := by
  rcases hab with h1 | ⟨h1, h1'⟩ <;> rcases hbc with h2 | ⟨h2, h2'⟩
  · exact Or.inl (lt_trans h2 h1)
  · exact Or.inl (by rw [← h2]; exact h1)
  · exact Or.inl (by rw [h1]; exact h2)
  · exact Or.inr ⟨h1.trans h2, le_trans h2' h1'⟩

theorem candBefore_total (a b : QAPairWithSimilarity) :
    candBefore a b ∨ candBefore b a := by
  rcases lt_trichotomy a.similarity b.similarity with h | h | h
  · exact Or.inr (Or.inl h)
  · rcases le_total a.priority b.priority with hp | hp
    · exact Or.inr (Or.inr ⟨h.symm, hp⟩)
    · exact Or.inl (Or.inr ⟨h, hp⟩)
  · exact Or.inl (Or.inl h)

/-- C1 (amended): when the knowledge base holds an exact match for the
message, candidate selection bypasses ensemble scoring entirely: the
candidates are exactly the exact matches, each assigned similarity 100,
the top one by priority is chosen and its answer returned verbatim — but
the provenance recorded is the `QA Database` value also used by
high-similarity ensemble matches, not a distinct exact-match tag. -/
theorem c1_exact_short_circuit (env : RouterEnv) (message : String)
    (pairs : List QAPair) (hdb : env.db = Except.ok pairs)
    (hex : findExactMatch message pairs ≠ []) :
    findRelevantQAPairs env message 5 =
      (findExactMatch message pairs).map (toScored 100) ∧
    (∀ c ∈ findRelevantQAPairs env message 5, c.similarity = 100) ∧
    ∃ best others, findExactMatch message pairs = best :: others ∧
      (∀ qa ∈ others, qa.priority ≤ best.priority) ∧
      generateResponseDecision env message =
        (best.answer, ResponseSource.qaDatabase 100) := by
  have h1 : findRelevantQAPairs env message 5 =
      (findExactMatch message pairs).map (toScored 100) := by
    simp only [findRelevantQAPairs, hdb]
    rw [if_pos (List.length_pos.mpr hex)]
  obtain ⟨best, others, heq⟩ := List.exists_cons_of_ne_nil hex
  have htrans : ∀ a b c : QAPair, decide (b.priority ≤ a.priority) = true →
      decide (c.priority ≤ b.priority) = true →
      decide (c.priority ≤ a.priority) = true := by
    intro a b c hab hbc
    rw [decide_eq_true_eq] at hab hbc ⊢
    exact le_trans hbc hab
  have htotal : ∀ a b : QAPair,
      (decide (b.priority ≤ a.priority) || decide (a.priority ≤ b.priority)) = true := by
    intro a b
    rcases le_total a.priority b.priority with h | h <;> simp [h]
  have hsorted : ∀ qa ∈ others, qa.priority ≤ best.priority := by
    have hp := List.sorted_mergeSort htrans htotal
      ((pairs.filter (fun qa => qa.isActive)).filter
        (fun qa => normStr qa.question == normStr message))
    rw [show ((pairs.filter (fun qa => qa.isActive)).filter
        (fun qa => normStr qa.question == normStr message)).mergeSort
        (fun a b => decide (b.priority ≤ a.priority)) =
        findExactMatch message pairs from rfl, heq] at hp
    intro qa hqa
    have h2 := (List.pairwise_cons.mp hp).1 qa hqa
    rwa [decide_eq_true_eq] at h2
  refine ⟨h1, ?_, best, others, heq, hsorted, ?_⟩
  · intro c hc
    rw [h1] at hc
    obtain ⟨qa, _, rfl⟩ := List.mem_map.mp hc
    rfl
  · simp only [generateResponseDecision, h1, heq, List.map_cons]
    simp only [generateResponseCore]
    have h90 : (90 : ℝ) ≤ (toScored 100 best).similarity := by
      simp only [toScored]
      norm_num
    rw [if_pos h90]
    simp [toScored]

theorem c1_witness :
    findExactMatch "hello"
      [⟨"e1", "hello", "hi there", "c", "en", [], 1, true⟩] ≠ [] ∧
    generateResponseDecision
      ⟨Except.ok [⟨"e1", "hello", "hi there", "c", "en", [], 1, true⟩], [],
        Except.error (), Except.error (), Except.error ()⟩ "hello" =
      ("hi there", ResponseSource.qaDatabase 100) := by
  have hfe : findExactMatch "hello"
      [⟨"e1", "hello", "hi there", "c", "en", [], 1, true⟩] =
      [⟨"e1", "hello", "hi there", "c", "en", [], 1, true⟩] := by
    simp only [findExactMatch]
    rw [show (([⟨"e1", "hello", "hi there", "c", "en", [], 1, true⟩] :
        List QAPair).filter (fun qa => qa.isActive)).filter
        (fun qa => normStr qa.question == normStr "hello") =
        [⟨"e1", "hello", "hi there", "c", "en", [], 1, true⟩] from by decide,
      List.mergeSort_singleton]
  have hne : findExactMatch "hello"
      [⟨"e1", "hello", "hi there", "c", "en", [], 1, true⟩] ≠ [] := by
    rw [hfe]
    simp
  obtain ⟨-, -, best, others, heq, -, hdec⟩ := c1_exact_short_circuit
    ⟨Except.ok [⟨"e1", "hello", "hi there", "c", "en", [], 1, true⟩], [],
      Except.error (), Except.error (), Except.error ()⟩ "hello"
    [⟨"e1", "hello", "hi there", "c", "en", [], 1, true⟩] rfl hne
  rw [hfe] at heq
  injection heq with hb ho
  subst hb
  exact ⟨hne, hdec⟩

/-- C1 counterexample: the provenance is *not* a distinct exact-match tag.
An environment whose only entry matches the message exactly and one whose
entry is merely fuzzily similar (contextual score clamped to 100, no exact
match) produce the *same* provenance value `QA Database 100`. -/
theorem c1_counterexample :
    findExactMatch "a b" [⟨"e2", "b a", "a b", "c", "en", ["a"], 1, true⟩] = [] ∧
    (generateResponseDecision
      ⟨Except.ok [⟨"e2", "b a", "a b", "c", "en", ["a"], 1, true⟩], [],
        Except.error (), Except.error (), Except.error ()⟩ "a b").2 =
      ResponseSource.qaDatabase 100 ∧
    (generateResponseDecision
      ⟨Except.ok [⟨"e1", "hello", "hi there", "c", "en", [], 1, true⟩], [],
        Except.error (), Except.error (), Except.error ()⟩ "hello").2 =
      ResponseSource.qaDatabase 100 := by
  have hex : findExactMatch "a b" [⟨"e2", "b a", "a b", "c", "en", ["a"], 1, true⟩] = [] :=
    findExactMatch_nil _ _ (by decide)
  have hscore : (scoreQAPair "a b" ⟨"e2", "b a", "a b", "c", "en", ["a"], 1, true⟩).similarity
      = 100 := by
    simp only [scoreQAPair, toScored]
    exact ctx_ab_ba_boost
  have hsingle := findRelevantQAPairs_single
    ⟨Except.ok [⟨"e2", "b a", "a b", "c", "en", ["a"], 1, true⟩], [],
      Except.error (), Except.error (), Except.error ()⟩
    ⟨"e2", "b a", "a b", "c", "en", ["a"], 1, true⟩ "a b" rfl hex rfl
    (by rw [hscore]; norm_num)
  refine ⟨hex, ?_, ?_⟩
  · simp only [generateResponseDecision, hsingle]
    simp only [generateResponseCore]
    rw [if_pos (by rw [hscore]; norm_num)]
    simp only [hscore]
  · have hfe : findExactMatch "hello"
        [⟨"e1", "hello", "hi there", "c", "en", [], 1, true⟩] =
        [⟨"e1", "hello", "hi there", "c", "en", [], 1, true⟩] := by
      simp only [findExactMatch]
      rw [show (([⟨"e1", "hello", "hi there", "c", "en", [], 1, true⟩] :
          List QAPair).filter (fun qa => qa.isActive)).filter
          (fun qa => normStr qa.question == normStr "hello") =
          [⟨"e1", "hello", "hi there", "c", "en", [], 1, true⟩] from by decide,
        List.mergeSort_singleton]
    simp only [generateResponseDecision, findRelevantQAPairs]
    rw [hfe, if_pos (by simp)]
    simp only [List.map_cons, List.map_nil]
    simp only [generateResponseCore]
    have h90 : (90 : ℝ) ≤
        (toScored 100 ⟨"e1", "hello", "hi there", "c", "en", [], 1, true⟩).similarity := by
      simp only [toScored]
      norm_num
    rw [if_pos h90]
    simp [toScored]

/-- C4 (amended): when the knowledge-base fetch or scoring throws, the
candidate-finding step does *not* yield zero candidates outright: it falls
back to the legacy keyword / full-message lookup and assigns every result
a synthetic similarity of exactly 50; only when that fallback also throws
does it yield zero candidates (and the router then proceeds to the
generative attempt). -/
theorem c4_db_failure_fallback (env : RouterEnv) (msg : String) (limit : Nat)
    (hdb : env.db = Except.error ()) :
    findRelevantQAPairs env msg limit = legacyFallbackCandidates env ∧
    (env.msgKeywords = [] → ∀ rs, env.fullResults = Except.ok rs →
      legacyFallbackCandidates env = rs.map (toScored 50)) ∧
    (env.msgKeywords ≠ [] → ∀ rs, env.kwResults = Except.ok rs →
      legacyFallbackCandidates env = rs.map (toScored 50)) ∧
    (env.msgKeywords = [] → env.fullResults = Except.error () →
      findRelevantQAPairs env msg limit = []) ∧
    (env.msgKeywords ≠ [] → env.kwResults = Except.error () →
      findRelevantQAPairs env msg limit = []) := by
  have h0 : findRelevantQAPairs env msg limit = legacyFallbackCandidates env := by
    simp only [findRelevantQAPairs, hdb]
  refine ⟨h0, ?_, ?_, ?_, ?_⟩
  · intro hk rs hrs
    simp only [legacyFallbackCandidates, hrs]
    rw [if_pos (by simp [hk])]
  · intro hk rs hrs
    simp only [legacyFallbackCandidates, hrs]
    rw [if_neg (by simp [List.length_eq_zero, hk])]
  · intro hk hrs
    rw [h0]
    simp only [legacyFallbackCandidates, hrs]
    rw [if_pos (by simp [hk])]
  · intro hk hrs
    rw [h0]
    simp only [legacyFallbackCandidates, hrs]
    rw [if_neg (by simp [List.length_eq_zero, hk])]

theorem c4_witness :
    findRelevantQAPairs
      ⟨Except.error (), ["k"], Except.ok [⟨"e", "q", "a", "c", "en", [], 2, true⟩],
        Except.error (), Except.error ()⟩ "m" 5 =
      legacyFallbackCandidates
        ⟨Except.error (), ["k"], Except.ok [⟨"e", "q", "a", "c", "en", [], 2, true⟩],
          Except.error (), Except.error ()⟩ ∧
    legacyFallbackCandidates
      ⟨Except.error (), ["k"], Except.ok [⟨"e", "q", "a", "c", "en", [], 2, true⟩],
        Except.error (), Except.error ()⟩ =
      [⟨"e", "q", "a", "c", "en", [], 2, true⟩].map (toScored 50) := by
  have h := c4_db_failure_fallback
    ⟨Except.error (), ["k"], Except.ok [⟨"e", "q", "a", "c", "en", [], 2, true⟩],
      Except.error (), Except.error ()⟩ "m" 5 rfl
  exact ⟨h.1, h.2.2.1 (by decide) [⟨"e", "q", "a", "c", "en", [], 2, true⟩] rfl⟩

/-- C4 counterexample: with the knowledge base unreachable but the legacy
keyword lookup succeeding, the candidate-finding step returns a candidate
with synthetic similarity 50 — not zero candidates. -/
theorem c4_counterexample :
    findRelevantQAPairs
      ⟨Except.error (), ["aaa"], Except.ok [⟨"e", "q", "a", "c", "en", [], 0, true⟩],
        Except.error (), Except.error ()⟩ "some message" 5 =
      [toScored 50 ⟨"e", "q", "a", "c", "en", [], 0, true⟩] ∧
    (toScored 50 ⟨"e", "q", "a", "c", "en", [], 0, true⟩).similarity = 50 := by
  constructor
  · simp only [findRelevantQAPairs, legacyFallbackCandidates]
    norm_num
  · rfl

section
open scoped Classical

/-- C7: on the non-exact path with a reachable knowledge base, the
candidate list keeps only entries scoring strictly above the 20 floor, is
sorted descending by similarity with ties broken by descending priority,
has at most 5 entries (the default limit), and every candidate comes from
an active knowledge entry scored by the contextual ensemble. -/
theorem c7_candidate_invariants (env : RouterEnv) (message : String)
    (pairs : List QAPair) (hdb : env.db = Except.ok pairs)
    (hex : findExactMatch message pairs = []) :
    (∀ c ∈ findRelevantQAPairs env message 5, 20 < c.similarity) ∧
    (findRelevantQAPairs env message 5).Pairwise candBefore ∧
    (findRelevantQAPairs env message 5).length ≤ 5 ∧
    (∀ c ∈ findRelevantQAPairs env message 5, ∃ qa ∈ pairs,
      qa.isActive = true ∧ c = scoreQAPair message qa) := by
  have htrans : ∀ a b c : QAPairWithSimilarity, decide (candBefore a b) = true →
      decide (candBefore b c) = true → decide (candBefore a c) = true := by
    intro a b c hab hbc
    rw [decide_eq_true_eq] at hab hbc ⊢
    exact candBefore_trans hab hbc
  have htotal : ∀ a b : QAPairWithSimilarity,
      (decide (candBefore a b) || decide (candBefore b a)) = true := by
    intro a b
    rcases candBefore_total a b with h | h <;> simp [h]
  by_cases hL : (pairs.filter (fun qa => qa.isActive)).length = 0
  · have hout : findRelevantQAPairs env message 5 = [] := by
      simp only [findRelevantQAPairs, hdb]
      rw [hex, if_neg (by simp), if_pos hL]
    rw [hout]
    refine ⟨by simp, by simp, by simp, by simp⟩
  · have hout : findRelevantQAPairs env message 5 =
        ((((pairs.filter (fun qa => qa.isActive)).map (scoreQAPair message)).filter
          (fun qa => decide (20 < qa.similarity))).mergeSort
          (fun a b => decide (candBefore a b))).take 5 := by
      simp only [findRelevantQAPairs, hdb]
      rw [hex, if_neg (by simp), if_neg hL]
    have hmem : ∀ c ∈ findRelevantQAPairs env message 5,
        c ∈ (((pairs.filter (fun qa => qa.isActive)).map (scoreQAPair message)).filter
          (fun qa => decide (20 < qa.similarity))) := by
      intro c hc
      rw [hout] at hc
      exact ((List.mergeSort_perm _ _).mem_iff).mp ((List.take_sublist _ _).subset hc)
    refine ⟨?_, ?_, ?_, ?_⟩
    · intro c hc
      have h2 := (List.mem_filter.mp (hmem c hc)).2
      rwa [decide_eq_true_eq] at h2
    · rw [hout]
      refine List.Pairwise.sublist (List.take_sublist _ _) ?_
      have hp := List.sorted_mergeSort htrans htotal
        ((((pairs.filter (fun qa => qa.isActive)).map (scoreQAPair message)).filter
          (fun qa => decide (20 < qa.similarity))))
      exact hp.imp (fun h => of_decide_eq_true h)
    · rw [hout]
      simp [List.length_take]
    · intro c hc
      have h2 := (List.mem_filter.mp (hmem c hc)).1
      obtain ⟨qa, hqa, rfl⟩ := List.mem_map.mp h2
      obtain ⟨hqp, hqact⟩ := List.mem_filter.mp hqa
      exact ⟨qa, hqp, hqact, rfl⟩

end

theorem c7_witness :
    (∀ c ∈ findRelevantQAPairs
        ⟨Except.ok [⟨"e7", "xyz q", "ans", "c", "en", [], 3, true⟩], [],
          Except.error (), Except.error (), Except.error ()⟩ "hello there" 5,
      20 < c.similarity) ∧
    (findRelevantQAPairs
        ⟨Except.ok [⟨"e7", "xyz q", "ans", "c", "en", [], 3, true⟩], [],
          Except.error (), Except.error (), Except.error ()⟩ "hello there" 5).length ≤ 5 := by
  have h := c7_candidate_invariants
    ⟨Except.ok [⟨"e7", "xyz q", "ans", "c", "en", [], 3, true⟩], [],
      Except.error (), Except.error (), Except.error ()⟩ "hello there"
    [⟨"e7", "xyz q", "ans", "c", "en", [], 3, true⟩] rfl
    (findExactMatch_nil _ _ (by decide))
  exact ⟨h.1, h.2.2.1⟩

theorem c6_witness :
    normStr "cat" ≠ normStr "dog" ∧
    calculateSimilarity "cat" "dog" =
      round2 (0.20 * (100 *
          (((max (normStr "cat").data.length (normStr "dog").data.length : ℕ) : ℝ) -
            (levRec (normStr "cat").data (normStr "dog").data : ℕ)) /
          ((max (normStr "cat").data.length (normStr "dog").data.length : ℕ) : ℝ)) +
        0.30 * jaccardSimilarity (normStr "cat") (normStr "dog") +
        0.30 * cosineSimilarity (normStr "cat") (normStr "dog") +
        0.20 * keywordSimilarity (normStr "cat") (normStr "dog")) :=
  ⟨by decide, c6_weighted_ensemble "cat" "dog" (by decide) (by decide) (by decide)⟩

end UpToCode
